import Mathlib

/-!
Verification of the dispatch / resilience / queue subsystem of the
PaperInsight-AI repository.

The development shallowly embeds the relevant TypeScript functions:
  * `runWithRetry`        (services file, retry policy with exponential backoff)
  * `dispatchAIRequest`   (native-provider model fallback chain)
  * `extractJSON`         (robust JSON recovery from LLM free text)
  * `checkPaperTimeliness`, `checkVenueQuality`, `checkAuthorIntegrity`
  * `verifyAndFindPaperLink` and the recommendation-enrichment pass
  * the OpenAI-compatible adapter URL normalization
  * the App-level FIFO job queue (a small transition system)

Asynchronous execution is modelled by explicit traces: each embedded
operation returns, besides its result, the list of observable events
(attempts made, back-off sleeps performed) and, where relevant, a logical
clock.  `AbortSignal` is modelled by the absolute time at which the signal
fires.  Machine floats never enter any modelled computation; JSON numbers
are kept as their source lexemes.
-/

namespace PaperInsight

/-! ## Character-list string utilities

All scanning is done on `List Char` (`String.data`) so that proofs can
proceed by structural induction and concrete cases by `decide`. -/

/-- `startsWithChars pat s`: `pat` is a prefix of `s`. -/
def startsWithChars : List Char → List Char → Bool
  | [], _ => true
  | _ :: _, [] => false
  | a :: as, b :: bs => a == b && startsWithChars as bs

/-- `containsChars pat s`: `pat` occurs as a contiguous substring of `s`
(model of JavaScript `String.prototype.includes`). -/
def containsChars (pat : List Char) : List Char → Bool
  | [] => pat.isEmpty
  | b :: bs => startsWithChars pat (b :: bs) || containsChars pat bs

/-- Substring test on `String`s, via the character-list model. -/
def strIncludes (s pat : String) : Bool :=
  containsChars pat.data s.data

/-- `endsWithChars pat s`: `pat` is a suffix of `s`. -/
def endsWithChars (pat s : List Char) : Bool :=
  startsWithChars pat.reverse s.reverse

/-! ## Errors and the retry policy (`runWithRetry`)

Source: the services file, `runWithRetry` (lines 24-59):

```ts
async function runWithRetry<T>(operation, signal?, retries = 2, baseDelay = 1000) {
    try {
        if (signal?.aborted) throw new Error("Aborted");
        return await operation();
    } catch (error) {
        if (signal?.aborted) throw new Error("Aborted");
        const msg = error.message || "";
        const isServerErr = error.status >= 500 || msg.includes("500") ||
            msg.includes("503") || msg.includes("Rpc failed") ||
            msg.includes("xhr error") || msg.includes("fetch failed") ||
            msg.includes("Overloaded");
        if (msg.includes("30011") || msg.includes("401") || msg.includes("403")) throw error;
        if (isServerErr && retries > 0) {
            await wait(baseDelay);
            return runWithRetry(operation, signal, retries - 1, baseDelay * 2);
        }
        throw error;
    }
}
```

`wait` is a bare `setTimeout` promise: it does not listen to the signal. -/

/-- A thrown JavaScript error as observed by `runWithRetry`: an optional
numeric `status` field and a `message` string.  In JS, `error.status >= 500`
is `false` when `status` is `undefined` (`NaN >= 500`), which the `Option`
models. -/
structure Err where
  status : Option Int
  msg : String
deriving Repr, DecidableEq

/-- Transient ("server error") classification, line 38-45 of the service. -/
def isServerErr (e : Err) : Bool :=
  (match e.status with
   | some s => decide (500 ≤ s)
   | none => false) ||
  strIncludes e.msg "500" ||
  strIncludes e.msg "503" ||
  strIncludes e.msg "Rpc failed" ||
  strIncludes e.msg "xhr error" ||
  strIncludes e.msg "fetch failed" ||
  strIncludes e.msg "Overloaded"

/-- Non-retryable classification, line 48: payment-required provider code
30011 or HTTP 401/403 markers in the message. -/
def isNonRetryable (e : Err) : Bool :=
  strIncludes e.msg "30011" ||
  strIncludes e.msg "401" ||
  strIncludes e.msg "403"

/-- Result of one invocation of the wrapped operation: the value or a
thrown error, together with the duration the invocation took. -/
inductive Outcome (T : Type) where
  | ok (v : T)
  | err (e : Err)
deriving Repr, DecidableEq

/-- Observable events of a `runWithRetry` execution: an operation attempt
(`idx` counts from 0) started at logical time `t`, or a back-off sleep of
`ms` milliseconds started at time `t`. -/
inductive REvent where
  | attemptAt (idx t : Nat)
  | waitedFor (ms t : Nat)
deriving Repr, DecidableEq

/-- Final result of `runWithRetry`: a value, the distinguished
`Error("Aborted")`, or a propagated operation error. -/
inductive RResult (T : Type) where
  | ok (v : T)
  | abortedErr
  | err (e : Err)
deriving Repr, DecidableEq

/-- Full observable behaviour of one `runWithRetry` call. -/
structure RunOut (T : Type) where
  result : RResult T
  events : List REvent
  endTime : Nat
deriving Repr, DecidableEq

/-- `signal?.aborted` at logical time `now`, where `abortAt = some a` means
the token fires at absolute time `a`. -/
def signalAborted (abortAt : Option Nat) (now : Nat) : Bool :=
  match abortAt with
  | none => false
  | some a => decide (a ≤ now)

/-- Shallow embedding of `runWithRetry`.  `op k` gives the outcome and
duration of the `k`-th invocation of `operation`; recursion is on the
remaining `retries` exactly as in the source.  The `wait` helper is a bare
`setTimeout`: the sleep always advances the clock by the full delay. -/
def runWithRetryGo {T : Type} (op : Nat → Outcome T × Nat) (abortAt : Option Nat) :
    Nat → Nat → Nat → Nat → RunOut T
  | retries, baseDelay, k, now =>
    if signalAborted abortAt now then
      -- line 31: entry check throws `Error("Aborted")`; the catch block
      -- re-checks the signal (line 34) and rethrows `Error("Aborted")`.
      ⟨RResult.abortedErr, [], now⟩
    else
      match op k with
      | (Outcome.ok v, d) => ⟨RResult.ok v, [REvent.attemptAt k now], now + d⟩
      | (Outcome.err e, d) =>
        let t1 := now + d
        if signalAborted abortAt t1 then
          -- line 34: signal fired while the operation was in flight
          ⟨RResult.abortedErr, [REvent.attemptAt k now], t1⟩
        else if isNonRetryable e then
          -- line 48-50: fail immediately, propagating the original error
          ⟨RResult.err e, [REvent.attemptAt k now], t1⟩
        else if isServerErr e then
          match retries with
          | 0 => ⟨RResult.err e, [REvent.attemptAt k now], t1⟩
          | r + 1 =>
            -- lines 52-56: sleep `baseDelay`, then recurse with
            -- `retries - 1` and `baseDelay * 2`
            let rest := runWithRetryGo op abortAt r (baseDelay * 2) (k + 1) (t1 + baseDelay)
            ⟨rest.result, REvent.attemptAt k now :: REvent.waitedFor baseDelay t1 :: rest.events,
              rest.endTime⟩
        else
          ⟨RResult.err e, [REvent.attemptAt k now], t1⟩

/-- `runWithRetry` with the source defaults `retries = 2`,
`baseDelay = 1000`, starting at logical time 0. -/
def runWithRetry {T : Type} (op : Nat → Outcome T × Nat) (abortAt : Option Nat) : RunOut T :=
  runWithRetryGo op abortAt 2 1000 0 0

/-- Number of operation invocations recorded in a trace. -/
def attemptCount (evs : List REvent) : Nat :=
  evs.countP (fun ev => match ev with | REvent.attemptAt _ _ => true | _ => false)

/-- The back-off sleep durations recorded in a trace, in order. -/
def waitDurations : List REvent → List Nat
  | [] => []
  | REvent.attemptAt _ _ :: rest => waitDurations rest
  | REvent.waitedFor ms _ :: rest => ms :: waitDurations rest

@[simp] theorem signalAborted_none (now : Nat) : signalAborted none now = false := rfl

@[simp] theorem attemptCount_nil : attemptCount [] = 0 := rfl

@[simp] theorem attemptCount_attempt (k t : Nat) (l : List REvent) :
    attemptCount (REvent.attemptAt k t :: l) = attemptCount l + 1 := by
  simp [attemptCount, List.countP_cons]

@[simp] theorem attemptCount_waited (ms t : Nat) (l : List REvent) :
    attemptCount (REvent.waitedFor ms t :: l) = attemptCount l := by
  simp [attemptCount, List.countP_cons]

@[simp] theorem waitDurations_nil : waitDurations [] = [] := rfl

@[simp] theorem waitDurations_attempt (k t : Nat) (l : List REvent) :
    waitDurations (REvent.attemptAt k t :: l) = waitDurations l := rfl

@[simp] theorem waitDurations_waited (ms t : Nat) (l : List REvent) :
    waitDurations (REvent.waitedFor ms t :: l) = ms :: waitDurations l := rfl

/-- One-step unfolding of the retry interpreter. -/
theorem runWithRetryGo_unfold {T : Type} (op : Nat → Outcome T × Nat) (abortAt : Option Nat)
    (retries baseDelay k now : Nat) :
    runWithRetryGo op abortAt retries baseDelay k now =
      if signalAborted abortAt now then
        ⟨RResult.abortedErr, [], now⟩
      else
        match op k with
        | (Outcome.ok v, d) => ⟨RResult.ok v, [REvent.attemptAt k now], now + d⟩
        | (Outcome.err e, d) =>
          if signalAborted abortAt (now + d) then
            ⟨RResult.abortedErr, [REvent.attemptAt k now], now + d⟩
          else if isNonRetryable e then
            ⟨RResult.err e, [REvent.attemptAt k now], now + d⟩
          else if isServerErr e then
            match retries with
            | 0 => ⟨RResult.err e, [REvent.attemptAt k now], now + d⟩
            | r + 1 =>
              ⟨(runWithRetryGo op abortAt r (baseDelay * 2) (k + 1) (now + d + baseDelay)).result,
                REvent.attemptAt k now :: REvent.waitedFor baseDelay (now + d) ::
                  (runWithRetryGo op abortAt r (baseDelay * 2) (k + 1) (now + d + baseDelay)).events,
                (runWithRetryGo op abortAt r (baseDelay * 2) (k + 1) (now + d + baseDelay)).endTime⟩
          else
            ⟨RResult.err e, [REvent.attemptAt k now], now + d⟩ := by
  rw [runWithRetryGo]

/-- If every attempt from index `k` on fails with an error that the code
classifies as transient and not non-retryable, the policy makes exactly
`retries + 1` attempts, sleeping `D, 2D, 4D, ...` between them, and
propagates the error of the last attempt. -/
theorem retry_transient_all_fail {T : Type} (op : Nat → Outcome T × Nat)
    (e : Nat → Err) (d : Nat → Nat) :
    ∀ (N D k now : Nat),
      (∀ j, j ≤ N → op (k + j) = (Outcome.err (e (k + j)), d (k + j)) ∧
        isServerErr (e (k + j)) = true ∧ isNonRetryable (e (k + j)) = false) →
      attemptCount (runWithRetryGo op none N D k now).events = N + 1 ∧
      waitDurations (runWithRetryGo op none N D k now).events =
        (List.range N).map (fun i => D * 2 ^ i) ∧
      (runWithRetryGo op none N D k now).result = RResult.err (e (k + N)) := by
  intro N
  induction N with
  | zero =>
    intro D k now h
    obtain ⟨hop, hs, hn⟩ := h 0 (Nat.le_refl 0)
    rw [Nat.add_zero] at hop hs hn
    rw [runWithRetryGo_unfold]
    simp [hop, hs, hn]
  | succ N ih =>
    intro D k now h
    obtain ⟨hop, hs, hn⟩ := h 0 (Nat.zero_le _)
    rw [Nat.add_zero] at hop hs hn
    have ihh := ih (D * 2) (k + 1) (now + d k + D) (fun j hj => by
      have hsh := h (j + 1) (Nat.succ_le_succ hj)
      have : k + (j + 1) = k + 1 + j := by omega
      rw [this] at hsh
      exact hsh)
    rw [runWithRetryGo_unfold]
    simp only [signalAborted_none, Bool.false_eq_true, if_false, hop, hs, hn, if_true]
    refine ⟨?_, ?_, ?_⟩
    · simpa using ihh.1
    · have hr : (List.range (N + 1)).map (fun i => D * 2 ^ i)
          = D :: (List.range N).map (fun i => D * 2 * 2 ^ i) := by
        rw [List.range_succ_eq_map, List.map_cons, List.map_map]
        refine congrArg₂ _ (by simp) ?_
        refine List.map_congr_left (fun i _ => ?_)
        simp [Function.comp, pow_succ]
        ring
      rw [hr]
      simpa using ihh.2.1
    · have : k + (N + 1) = k + 1 + N := by omega
      rw [this]
      simpa using ihh.2.2

/-- If the first `j` attempts fail transiently and attempt `j` succeeds
(within the retry budget), the policy returns that success after exactly
`j + 1` attempts. -/
theorem retry_transient_then_ok {T : Type} (op : Nat → Outcome T × Nat) (v : T) (dv : Nat) :
    ∀ (j N D k now : Nat), j ≤ N →
      (∀ i, i < j → ∃ e di, op (k + i) = (Outcome.err e, di) ∧ isServerErr e = true ∧
        isNonRetryable e = false) →
      op (k + j) = (Outcome.ok v, dv) →
      (runWithRetryGo op none N D k now).result = RResult.ok v ∧
      attemptCount (runWithRetryGo op none N D k now).events = j + 1 := by
  intro j
  induction j with
  | zero =>
    intro N D k now _ _ hok
    rw [Nat.add_zero] at hok
    rw [runWithRetryGo_unfold]
    simp [hok]
  | succ j ih =>
    intro N D k now hN herr hok
    obtain ⟨e0, d0, h0, hs0, hn0⟩ := herr 0 (Nat.succ_pos j)
    rw [Nat.add_zero] at h0
    match N, hN with
    | Nat.succ M, hN =>
      have ihh := ih M (D * 2) (k + 1) (now + d0 + D) (Nat.le_of_succ_le_succ hN)
        (fun i hi => by
          obtain ⟨e, di, hop, hs, hn⟩ := herr (i + 1) (Nat.succ_lt_succ hi)
          have : k + (i + 1) = k + 1 + i := by omega
          rw [this] at hop
          exact ⟨e, di, hop, hs, hn⟩)
        (by
          have : k + (j + 1) = k + 1 + j := by omega
          rw [this] at hok
          exact hok)
      rw [runWithRetryGo_unfold]
      simp only [signalAborted_none, Bool.false_eq_true, if_false, h0, hs0, hn0, if_true]
      refine ⟨by simpa using ihh.1, by simpa using ihh.2⟩

/-- An operation that always throws an error carrying HTTP status 500 and a
message that mentions "401": transient-class by the claim's definition
(status >= 500), but matching a non-retryable substring. -/
def cOpStatus500Msg401 : Nat → Outcome Nat × Nat :=
  fun _ => (Outcome.err ⟨some 500, "Internal error; see 401 docs"⟩, 0)

/-- C1 counterexample.  The error `{status: 500, message: "Internal error;
see 401 docs"}` is transient-class exactly as the claim defines it (HTTP
status >= 500), and every attempt fails with it; yet with the default
`maxRetries = 2` the operation is invoked exactly once, not `2 + 1 = 3`
times, and no back-off wait happens — because the message also contains
"401", and line 48 of `runWithRetry` throws before the transient branch is
reached. -/
theorem c1_transient_class_counterexample :
    isServerErr ⟨some 500, "Internal error; see 401 docs"⟩ = true ∧
    attemptCount (runWithRetryGo cOpStatus500Msg401 none 2 1000 0 0).events = 1 ∧
    waitDurations (runWithRetryGo cOpStatus500Msg401 none 2 1000 0 0).events = [] ∧
    (1 : Nat) ≠ 2 + 1 := by
  refine ⟨by decide, by decide, by decide, by decide⟩

/-- C1 (amended).  For `runWithRetry` with `maxRetries = N` and base delay
`D`: if every attempt fails with an error classified transient
(`isServerErr`) *and not matching any non-retryable substring*
("30011"/"401"/"403", which take precedence), the operation is invoked
exactly `N + 1` times with sleeps `D, 2D, ..., 2^(N-1) * D` between
consecutive attempts, and the last error is propagated; and if the first
`j` attempts fail that way and attempt `j` succeeds, its result is
returned after exactly `j + 1` invocations. -/
theorem c1_retry_transient_amended {T : Type} (op : Nat → Outcome T × Nat) (N D : Nat) :
    (∀ (e : Nat → Err) (d : Nat → Nat),
      (∀ j, j ≤ N → op j = (Outcome.err (e j), d j) ∧
        isServerErr (e j) = true ∧ isNonRetryable (e j) = false) →
      attemptCount (runWithRetryGo op none N D 0 0).events = N + 1 ∧
      waitDurations (runWithRetryGo op none N D 0 0).events =
        (List.range N).map (fun i => D * 2 ^ i) ∧
      (runWithRetryGo op none N D 0 0).result = RResult.err (e N)) ∧
    (∀ (v : T) (dv j : Nat), j ≤ N →
      (∀ i, i < j → ∃ e di, op i = (Outcome.err e, di) ∧ isServerErr e = true ∧
        isNonRetryable e = false) →
      op j = (Outcome.ok v, dv) →
      (runWithRetryGo op none N D 0 0).result = RResult.ok v ∧
      attemptCount (runWithRetryGo op none N D 0 0).events = j + 1) := by
  constructor
  · intro e d h
    have := retry_transient_all_fail op e d N D 0 0 (fun j hj => by simpa using h j hj)
    simpa using this
  · intro v dv j hj herr hok
    exact retry_transient_then_ok op v dv j N D 0 0 hj
      (fun i hi => by simpa using herr i hi) (by simpa using hok)

/-- An operation that always throws the transient error `"503"`. -/
def cOp503 : Nat → Outcome Nat × Nat := fun _ => (Outcome.err ⟨none, "503"⟩, 0)

/-- Witness for `c1_retry_transient_amended` at the source defaults
`N = 2`, `D = 1000` with an always-failing `"503"` operation: three
attempts, waits of 1000 and 2000 ms, final error propagated. -/
theorem c1_retry_transient_amended_witness :
    attemptCount (runWithRetryGo cOp503 none 2 1000 0 0).events = 3 ∧
    waitDurations (runWithRetryGo cOp503 none 2 1000 0 0).events = [1000, 2000] ∧
    (runWithRetryGo cOp503 none 2 1000 0 0).result = RResult.err ⟨none, "503"⟩ := by
  have h := (c1_retry_transient_amended cOp503 2 1000).1
    (fun _ => ⟨none, "503"⟩) (fun _ => 0)
    (fun j _ => ⟨rfl, show isServerErr ⟨none, "503"⟩ = true by decide,
      show isNonRetryable ⟨none, "503"⟩ = false by decide⟩)
  refine ⟨h.1, ?_, h.2.2⟩
  rw [h.2.1]
  decide

/-- C2.  If the first attempt fails with an error matching a non-retryable
marker ("30011", "401" or "403"), `runWithRetry` makes exactly one attempt
and propagates that error object unchanged, for every configured retry
budget and base delay; nothing is assumed about `isServerErr`, so this
covers errors matching both classifications (non-retryable wins). -/
theorem c2_nonretryable_single_attempt {T : Type} (op : Nat → Outcome T × Nat)
    (e : Err) (d : Nat) (retries baseDelay : Nat)
    (hop : op 0 = (Outcome.err e, d))
    (he : isNonRetryable e = true) :
    runWithRetryGo op none retries baseDelay 0 0 =
      ⟨RResult.err e, [REvent.attemptAt 0 0], d⟩ := by
  rw [runWithRetryGo_unfold]
  simp [hop, he]

/-- An operation whose error message matches both the transient class
("Rpc failed") and the non-retryable class ("401"). -/
def cOpRpc401 : Nat → Outcome Nat × Nat :=
  fun _ => (Outcome.err ⟨none, "Rpc failed: 401 Unauthorized"⟩, 7)

/-- Witness for `c2_nonretryable_single_attempt`: an error matching both
classes is thrown once, unchanged, even with `retries = 9`. -/
theorem c2_nonretryable_single_attempt_witness :
    isServerErr ⟨none, "Rpc failed: 401 Unauthorized"⟩ = true ∧
    isNonRetryable ⟨none, "Rpc failed: 401 Unauthorized"⟩ = true ∧
    runWithRetryGo cOpRpc401 none 9 1000 0 0 =
      ⟨RResult.err ⟨none, "Rpc failed: 401 Unauthorized"⟩, [REvent.attemptAt 0 0], 7⟩ :=
  ⟨by decide, by decide,
    c2_nonretryable_single_attempt cOpRpc401 _ 7 9 1000 rfl (by decide)⟩

/-- C3 counterexample.  The cancellation token fires at logical time 1,
strictly inside the first back-off wait (which spans times 0 to 1000): the
trace nevertheless records the full 1000 ms sleep and the run only ends at
time 1000, when the next attempt's entry check observes the signal.  The
`wait` helper is a bare `setTimeout`, so the backoff wait does NOT observe
cancellation — it sleeps to completion first, contradicting the claim
(which is otherwise right that the result is the distinguishable Aborted
error and that no further attempt is made). -/
theorem c3_wait_cancellation_counterexample :
    runWithRetryGo cOp503 (some 1) 2 1000 0 0 =
      ⟨RResult.abortedErr, [REvent.attemptAt 0 0, REvent.waitedFor 1000 0], 1000⟩ ∧
    signalAborted (some 1) 1 = true ∧
    (0 : Nat) < 1 ∧ (1 : Nat) < 0 + 1000 := by
  refine ⟨by decide, by decide, by decide, by decide⟩

/-- If the token is already signaled at entry, `runWithRetry` aborts
immediately: no attempt, no wait, distinguishable Aborted result. -/
theorem retry_abort_entry {T : Type} (op : Nat → Outcome T × Nat) (a : Nat)
    (retries D k now : Nat) (h : a ≤ now) :
    runWithRetryGo op (some a) retries D k now = ⟨RResult.abortedErr, [], now⟩ := by
  rw [runWithRetryGo_unfold]
  simp [signalAborted, h]

/-- No operation attempt is ever started at or after the token's firing
time: once the signal fires, the next check point aborts the run. -/
theorem retry_attempts_before_abort {T : Type} (op : Nat → Outcome T × Nat) (a : Nat) :
    ∀ (retries D k now idx t : Nat),
      REvent.attemptAt idx t ∈ (runWithRetryGo op (some a) retries D k now).events →
      t < a := by
  intro retries
  induction retries with
  | zero =>
    intro D k now idx t
    rw [runWithRetryGo_unfold]
    by_cases hnow : a ≤ now
    · simp [signalAborted, hnow]
    · simp only [signalAborted, decide_eq_true_eq, hnow, if_false]
      match hop : op k with
      | (Outcome.ok v, d) =>
        intro ht
        simp at ht
        omega
      | (Outcome.err e, d) =>
        dsimp only
        split_ifs <;> (intro ht; simp at ht; omega)
  | succ r ih =>
    intro D k now idx t
    rw [runWithRetryGo_unfold]
    by_cases hnow : a ≤ now
    · simp [signalAborted, hnow]
    · simp only [signalAborted, decide_eq_true_eq, hnow, if_false]
      match hop : op k with
      | (Outcome.ok v, d) =>
        intro ht
        simp at ht
        omega
      | (Outcome.err e, d) =>
        dsimp only
        split_ifs with h1 h2 h3
        · intro ht; simp at ht; omega
        · intro ht; simp at ht; omega
        · intro ht
          simp only [List.mem_cons] at ht
          rcases ht with ht | ht | ht
          · cases ht; omega
          · cases ht
          · exact ih (D * 2) (k + 1) (now + d + D) idx t ht
        · intro ht; simp at ht; omega

/-- Whenever `runWithRetry` propagates an ordinary (non-Aborted) error,
the run finished strictly before the token's firing time. -/
theorem retry_err_before_abort {T : Type} (op : Nat → Outcome T × Nat) (a : Nat) :
    ∀ (retries D k now : Nat) (e : Err),
      (runWithRetryGo op (some a) retries D k now).result = RResult.err e →
      (runWithRetryGo op (some a) retries D k now).endTime < a := by
  intro retries
  induction retries with
  | zero =>
    intro D k now e
    rw [runWithRetryGo_unfold]
    by_cases hnow : a ≤ now
    · simp [signalAborted, hnow]
    · simp only [signalAborted, decide_eq_true_eq, hnow, if_false]
      match hop : op k with
      | (Outcome.ok v, d) => intro ht; cases ht
      | (Outcome.err e', d) =>
        dsimp only
        split_ifs with h1 h2 h3 <;> intro ht <;> cases ht <;> dsimp only <;> omega
  | succ r ih =>
    intro D k now e
    rw [runWithRetryGo_unfold]
    by_cases hnow : a ≤ now
    · simp [signalAborted, hnow]
    · simp only [signalAborted, decide_eq_true_eq, hnow, if_false]
      match hop : op k with
      | (Outcome.ok v, d) => intro ht; cases ht
      | (Outcome.err e', d) =>
        dsimp only
        split_ifs with h1 h2 h3
        · intro ht; cases ht
        · intro ht; cases ht; dsimp only; omega
        · exact ih (D * 2) (k + 1) (now + d + D) e
        · intro ht; cases ht; dsimp only; omega

/-- C3 (amended).  With a token firing at absolute time `a`:
(1) if the token is already signaled when `runWithRetry` is entered, it
raises the distinguishable Aborted error immediately, with no attempt and
no wait, regardless of retries remaining; (2) no operation attempt is ever
started at or after time `a` — once the token fires, the next check (entry
or post-failure) aborts the run; (3) whenever an ordinary error is
propagated the run finished strictly before `a`, so a run that observes
the signal never reports a plain provider error, only Aborted (or a
success already in flight).  The backoff wait itself, however, always
sleeps to completion; cancellation is observed only at the following
entry check. -/
theorem c3_abort_amended {T : Type} (op : Nat → Outcome T × Nat) (a : Nat)
    (retries D k now : Nat) :
    (a ≤ now →
      runWithRetryGo op (some a) retries D k now = ⟨RResult.abortedErr, [], now⟩) ∧
    (∀ idx t, REvent.attemptAt idx t ∈ (runWithRetryGo op (some a) retries D k now).events →
      t < a) ∧
    (∀ e, (runWithRetryGo op (some a) retries D k now).result = RResult.err e →
      (runWithRetryGo op (some a) retries D k now).endTime < a) :=
  ⟨fun h => retry_abort_entry op a retries D k now h,
    retry_attempts_before_abort op a retries D k now,
    retry_err_before_abort op a retries D k now⟩

/-- Witness for `c3_abort_amended`: a token already signaled at entry
(fires at time 0) aborts immediately with no attempts, even though 2
retries remain. -/
theorem c3_abort_amended_witness :
    runWithRetryGo cOp503 (some 0) 2 1000 0 0 =
      ⟨RResult.abortedErr, [], 0⟩ :=
  (c3_abort_amended cOp503 0 2 1000 0 0).1 (Nat.le_refl 0)

/-! ## The dispatcher's native-provider fallback chain (`dispatchAIRequest`)

Source, lines 200-245 of the newer service file:

```ts
const models = [
    settings.model || 'gemini-2.0-flash',
    'gemini-2.0-flash-lite-preview-02-05',
    'gemini-2.0-flash'
];
const uniqueModels = [...new Set(models)];
let lastError;
for (const model of uniqueModels) {
    try {
        return await runWithRetry(() => callGemini(..., model), signal);
    } catch (error) {
        lastError = error;
        if (signal?.aborted) throw error;
        const isQuota = error.message?.includes('429') ||
            error.message?.includes('Quota') || error.message?.includes('Overloaded');
        if (!isQuota) throw error;
    }
}
throw lastError;
```

Each per-model call (already wrapped in the retry policy) is abstracted as
a function `call : String → Outcome T` giving that candidate's final
outcome. -/

/-- Quota/overload classification used by the fallback loop (line 238). -/
def isQuota (e : Err) : Bool :=
  strIncludes e.msg "429" || strIncludes e.msg "Quota" || strIncludes e.msg "Overloaded"

/-- `[...new Set(models)]`: de-duplication keeping first occurrences in
insertion order. -/
def dedupeKeep (seen : List String) : List String → List String
  | [] => []
  | m :: ms => if m ∈ seen then dedupeKeep seen ms else m :: dedupeKeep (m :: seen) ms

/-- The candidate chain for the native provider: the configured model (or
the default when the setting is the empty string, JS falsiness of
`settings.model || 'gemini-2.0-flash'`), then the two built-in defaults,
de-duplicated. -/
def geminiModelChain (userModel : String) : List String :=
  dedupeKeep []
    [if userModel = "" then "gemini-2.0-flash" else userModel,
     "gemini-2.0-flash-lite-preview-02-05",
     "gemini-2.0-flash"]

/-- Result of the fallback loop: a success, a raised error, or the corner
case of `throw lastError` with `lastError` still `undefined` (empty
chain, unreachable for the real chain). -/
inductive DispatchOut (T : Type) where
  | ok (v : T)
  | err (e : Err)
  | undef
deriving Repr, DecidableEq

/-- The `for (const model of uniqueModels)` loop.  Returns the final
outcome and the list of candidates actually invoked, in order.  `aborted`
models `signal?.aborted` as observed in the catch block. -/
def tryModels {T : Type} (call : String → Outcome T) (aborted : Bool) :
    List String → Option Err → DispatchOut T × List String
  | [], last =>
    (match last with
     | some e => DispatchOut.err e
     | none => DispatchOut.undef, [])
  | m :: ms, _last =>
    match call m with
    | Outcome.ok v => (DispatchOut.ok v, [m])
    | Outcome.err e =>
      if aborted then (DispatchOut.err e, [m])
      else if isQuota e then
        ((tryModels call aborted ms (some e)).1, m :: (tryModels call aborted ms (some e)).2)
      else (DispatchOut.err e, [m])

/-- `dispatchAIRequest` for the native provider, with no cancellation. -/
def dispatchGemini {T : Type} (call : String → Outcome T) (userModel : String) :
    DispatchOut T × List String :=
  tryModels call false (geminiModelChain userModel) none

theorem dedupeKeep_not_mem_seen :
    ∀ (l seen : List String) (x : String), x ∈ seen → x ∉ dedupeKeep seen l := by
  intro l
  induction l with
  | nil => intro seen x _ h; cases h
  | cons m ms ih =>
    intro seen x hx
    by_cases hm : m ∈ seen
    · simpa [dedupeKeep, hm] using ih seen x hx
    · simp only [dedupeKeep, hm, if_false, List.mem_cons, not_or]
      exact ⟨fun he => hm (he ▸ hx), ih (m :: seen) x (List.mem_cons_of_mem m hx)⟩

theorem dedupeKeep_nodup : ∀ (l seen : List String), (dedupeKeep seen l).Nodup := by
  intro l
  induction l with
  | nil => intro seen; simp [dedupeKeep]
  | cons m ms ih =>
    intro seen
    by_cases hm : m ∈ seen
    · simpa [dedupeKeep, hm] using ih seen
    · simp only [dedupeKeep, hm, if_false, List.nodup_cons]
      exact ⟨dedupeKeep_not_mem_seen ms (m :: seen) m (List.mem_cons_self m seen),
        ih (m :: seen)⟩

theorem geminiModelChain_ne_nil (userModel : String) : geminiModelChain userModel ≠ [] := by
  simp [geminiModelChain, dedupeKeep]

theorem geminiModelChain_head (userModel : String) :
    (geminiModelChain userModel).head? =
      some (if userModel = "" then "gemini-2.0-flash" else userModel) := by
  simp [geminiModelChain, dedupeKeep]

/-- A prefix of quota failures followed by a success: the success is
returned and nothing after it is invoked. -/
theorem tryModels_quota_then_ok {T : Type} (call : String → Outcome T) (v : T) :
    ∀ (pre : List String) (m : String) (post : List String) (last : Option Err),
      (∀ x ∈ pre, ∃ e, call x = Outcome.err e ∧ isQuota e = true) →
      call m = Outcome.ok v →
      tryModels call false (pre ++ m :: post) last = (DispatchOut.ok v, pre ++ [m]) := by
  intro pre
  induction pre with
  | nil =>
    intro m post last _ hok
    simp [tryModels, hok]
  | cons x pre ih =>
    intro m post last hq hok
    obtain ⟨e, hx, hqe⟩ := hq x (List.mem_cons_self x pre)
    have ihh := ih m post (some e) (fun y hy => hq y (List.mem_cons_of_mem x hy)) hok
    simp [tryModels, hx, hqe, ihh]

/-- A prefix of quota failures followed by a non-quota failure: that error
is raised verbatim and nothing after it is invoked. -/
theorem tryModels_quota_then_fatal {T : Type} (call : String → Outcome T) (e : Err) :
    ∀ (pre : List String) (m : String) (post : List String) (last : Option Err),
      (∀ x ∈ pre, ∃ e', call x = Outcome.err e' ∧ isQuota e' = true) →
      call m = Outcome.err e → isQuota e = false →
      tryModels call false (pre ++ m :: post) last = (DispatchOut.err e, pre ++ [m]) := by
  intro pre
  induction pre with
  | nil =>
    intro m post last _ hm hq
    simp [tryModels, hm, hq]
  | cons x pre ih =>
    intro m post last hq hm hnq
    obtain ⟨e', hx, hqe⟩ := hq x (List.mem_cons_self x pre)
    have ihh := ih m post (some e') (fun y hy => hq y (List.mem_cons_of_mem x hy)) hm hnq
    simp [tryModels, hx, hqe, ihh]

/-- Every candidate fails with a quota error: every candidate is invoked
and the last error is raised. -/
theorem tryModels_all_quota {T : Type} (call : String → Outcome T) :
    ∀ (pre : List String) (m : String) (last : Option Err),
      (∀ x ∈ pre, ∃ e, call x = Outcome.err e ∧ isQuota e = true) →
      (∃ e, call m = Outcome.err e ∧ isQuota e = true) →
      ∃ e, call m = Outcome.err e ∧
        tryModels call false (pre ++ [m]) last = (DispatchOut.err e, pre ++ [m]) := by
  intro pre
  induction pre with
  | nil =>
    intro m last _ hm
    obtain ⟨e, hme, hqe⟩ := hm
    exact ⟨e, hme, by simp [tryModels, hme, hqe]⟩
  | cons x pre ih =>
    intro m last hq hm
    obtain ⟨e', hx, hqe⟩ := hq x (List.mem_cons_self x pre)
    obtain ⟨e, hme, htm⟩ := ih m (some e') (fun y hy => hq y (List.mem_cons_of_mem x hy)) hm
    exact ⟨e, hme, by simp [tryModels, hx, hqe, htm]⟩

/-- C4.  For the native provider, `dispatchAIRequest` tries the ordered,
de-duplicated candidate chain (the configured model first, then the two
built-in defaults): (i) the chain has no duplicates and starts with the
configured model; (ii) if the candidates before `m` all fail with
quota/overload-class errors (message containing "429", "Quota" or
"Overloaded") and `m` succeeds, `m`'s result is returned and the
candidates after `m` are never invoked; (iii) if `m` instead fails with a
non-quota error, that error is raised verbatim and the chain stops at `m`;
(iv) if every candidate fails with a quota error, all are invoked and the
last candidate's error is raised. -/
theorem c4_gemini_fallback_chain {T : Type} (call : String → Outcome T) (userModel : String) :
    ((geminiModelChain userModel).Nodup ∧
      (geminiModelChain userModel).head? =
        some (if userModel = "" then "gemini-2.0-flash" else userModel)) ∧
    (∀ pre m post v, geminiModelChain userModel = pre ++ m :: post →
      (∀ x ∈ pre, ∃ e, call x = Outcome.err e ∧ isQuota e = true) →
      call m = Outcome.ok v →
      dispatchGemini call userModel = (DispatchOut.ok v, pre ++ [m])) ∧
    (∀ pre m post e, geminiModelChain userModel = pre ++ m :: post →
      (∀ x ∈ pre, ∃ e', call x = Outcome.err e' ∧ isQuota e' = true) →
      call m = Outcome.err e → isQuota e = false →
      dispatchGemini call userModel = (DispatchOut.err e, pre ++ [m])) ∧
    ((∀ x ∈ geminiModelChain userModel, ∃ e, call x = Outcome.err e ∧ isQuota e = true) →
      ∃ e, call ((geminiModelChain userModel).getLast (geminiModelChain_ne_nil userModel)) =
          Outcome.err e ∧
        dispatchGemini call userModel = (DispatchOut.err e, geminiModelChain userModel)) := by
  refine ⟨⟨dedupeKeep_nodup _ [], geminiModelChain_head userModel⟩, ?_, ?_, ?_⟩
  · intro pre m post v hchain hq hok
    unfold dispatchGemini
    rw [hchain]
    exact tryModels_quota_then_ok call v pre m post none hq hok
  · intro pre m post e hchain hq hm hnq
    unfold dispatchGemini
    rw [hchain]
    exact tryModels_quota_then_fatal call e pre m post none hq hm hnq
  · intro hall
    have hne := geminiModelChain_ne_nil userModel
    have hsplit := (geminiModelChain userModel).dropLast_append_getLast hne
    obtain ⟨e, hme, htm⟩ := tryModels_all_quota call
      (geminiModelChain userModel).dropLast
      ((geminiModelChain userModel).getLast hne) none
      (fun y hy => hall y (List.dropLast_subset _ hy))
      (hall _ (List.getLast_mem hne))
    refine ⟨e, hme, ?_⟩
    unfold dispatchGemini
    rw [← hsplit]
    exact htm

/-- A simulated per-model outcome: the configured `m1` is quota-limited,
the first default `m2` succeeds, the last default would fail hard. -/
def c4Call : String → Outcome Nat :=
  fun m =>
    if m = "gemini-2.5-pro" then Outcome.err ⟨none, "429 RESOURCE_EXHAUSTED: Quota"⟩
    else if m = "gemini-2.0-flash-lite-preview-02-05" then Outcome.ok 42
    else Outcome.err ⟨none, "500"⟩

/-- Witness for `c4_gemini_fallback_chain`: with candidates `[m1, m2, m3]`
where `m1` fails with a quota error and `m2` succeeds, the dispatched
result is `m2`'s result and `m3` is never invoked. -/
theorem c4_gemini_fallback_chain_witness :
    dispatchGemini c4Call "gemini-2.5-pro" =
      (DispatchOut.ok 42, ["gemini-2.5-pro", "gemini-2.0-flash-lite-preview-02-05"]) := by
  have h := (c4_gemini_fallback_chain c4Call "gemini-2.5-pro").2.1
    ["gemini-2.5-pro"] "gemini-2.0-flash-lite-preview-02-05" ["gemini-2.0-flash"] 42
    (by decide)
    (fun x hx => by
      have : x = "gemini-2.5-pro" := by simpa using hx
      exact ⟨⟨none, "429 RESOURCE_EXHAUSTED: Quota"⟩, by rw [this]; rfl, by decide⟩)
    rfl
  simpa using h

/-! ## JSON values and a model of `JSON.parse`

Needed by `extractJSON` (steps 1-3 all call `JSON.parse`).  Numeric tokens
are kept as their source lexemes, so no floating point enters the model;
object fields are kept in source order with duplicates preserved (lookups
take the last occurrence, as `JSON.parse` keeps the last duplicate). -/

inductive JVal where
  | jnull
  | jbool (b : Bool)
  | jnum (lexeme : String)
  | jstr (s : String)
  | jarr (elems : List JVal)
  | jobj (fields : List (String × JVal))
deriving Repr

/-- The `{` character, written via its code point. -/
def lbrace : Char := Char.ofNat 123

/-- The `}` character, written via its code point. -/
def rbrace : Char := Char.ofNat 125

/-- JSON insignificant whitespace: space, tab, line feed, carriage return. -/
def isJsonWs (c : Char) : Bool :=
  c == ' ' || c == '\t' || c == '\n' || c == '\r'

def skipWs : List Char → List Char
  | [] => []
  | c :: cs => if isJsonWs c then skipWs cs else c :: cs

def hexDigitVal (c : Char) : Option Nat :=
  if '0' ≤ c && c ≤ '9' then some (c.toNat - 48)
  else if 'a' ≤ c && c ≤ 'f' then some (c.toNat - 87)
  else if 'A' ≤ c && c ≤ 'F' then some (c.toNat - 55)
  else none

/-- JSON string literal body (the opening quote already consumed):
decodes escape sequences, rejects raw control characters and bad escapes,
returns the decoded text and the input after the closing quote. -/
def parseStrLit : Nat → List Char → Option (String × List Char)
  | 0, _ => none
  | _ + 1, [] => none
  | fuel + 1, c :: cs =>
    if c == '"' then some ("", cs)
    else if c == '\\' then
      match cs with
      | [] => none
      | e :: cs2 =>
        let dec : Option (Char × List Char) :=
          if e == '"' then some ('"', cs2)
          else if e == '\\' then some ('\\', cs2)
          else if e == '/' then some ('/', cs2)
          else if e == 'b' then some (Char.ofNat 8, cs2)
          else if e == 'f' then some (Char.ofNat 12, cs2)
          else if e == 'n' then some ('\n', cs2)
          else if e == 'r' then some ('\r', cs2)
          else if e == 't' then some ('\t', cs2)
          else if e == 'u' then
            match cs2 with
            | h1 :: h2 :: h3 :: h4 :: cs3 =>
              match hexDigitVal h1, hexDigitVal h2, hexDigitVal h3, hexDigitVal h4 with
              | some a, some b, some c3, some d4 =>
                some (Char.ofNat (((a * 16 + b) * 16 + c3) * 16 + d4), cs3)
              | _, _, _, _ => none
            | _ => none
          else none
        match dec with
        | none => none
        | some (ch, csr) =>
          match parseStrLit fuel csr with
          | none => none
          | some (s, rest) => some (String.mk (ch :: s.data), rest)
    else if c.toNat < 32 then none
    else
      match parseStrLit fuel cs with
      | none => none
      | some (s, rest) => some (String.mk (c :: s.data), rest)

/-- Longest leading run of decimal digits. -/
def takeDigits : List Char → List Char × List Char
  | [] => ([], [])
  | c :: cs =>
    if c.isDigit then
      let r := takeDigits cs
      (c :: r.1, r.2)
    else ([], c :: cs)

/-- Optional fraction part `.[0-9]+` (strict: a bare dot is an error). -/
def parseFracPart : List Char → Option (List Char × List Char)
  | c :: r =>
    if c == '.' then
      let fd := takeDigits r
      if fd.1.isEmpty then none else some ('.' :: fd.1, fd.2)
    else some ([], c :: r)
  | [] => some ([], [])

/-- Optional exponent part `[eE][+-]?[0-9]+` (strict). -/
def parseExpPart : List Char → Option (List Char × List Char)
  | c :: r =>
    if c == 'e' || c == 'E' then
      let sgn : List Char × List Char :=
        match r with
        | s :: r2 => if s == '+' || s == '-' then ([s], r2) else ([], s :: r2)
        | [] => ([], [])
      let ed := takeDigits sgn.2
      if ed.1.isEmpty then none else some (c :: (sgn.1 ++ ed.1), ed.2)
    else some ([], c :: r)
  | [] => some ([], [])

/-- JSON number token: `-?(0|[1-9][0-9]*)(\.[0-9]+)?([eE][+-]?[0-9]+)?`,
kept as its lexeme. -/
def parseNumTok (cs : List Char) : Option (JVal × List Char) :=
  let sign : List Char × List Char :=
    match cs with
    | c :: r => if c == '-' then (['-'], r) else ([], c :: r)
    | [] => ([], [])
  let intD := takeDigits sign.2
  if intD.1.isEmpty then none
  else if 1 < intD.1.length && intD.1.headD ' ' == '0' then none
  else
    match parseFracPart intD.2 with
    | none => none
    | some (fr, cs3) =>
      match parseExpPart cs3 with
      | none => none
      | some (ex, cs4) =>
        some (JVal.jnum (String.mk (sign.1 ++ intD.1 ++ fr ++ ex)), cs4)

/-- Parser mode: a full value, the rest of an object body (at a key), or
the rest of an array body (at an element). -/
inductive PMode where
  | val
  | objRest (acc : List (String × JVal))
  | arrRest (acc : List JVal)

/-- Fuel-driven recursive-descent JSON parser (one call of `JSON.parse`).
Each recursive call consumes at least one character before the next, so
`length + 2` fuel always suffices. -/
def parseGo : Nat → PMode → List Char → Option (JVal × List Char)
  | 0, _, _ => none
  | fuel + 1, PMode.val, cs =>
    match skipWs cs with
    | [] => none
    | c :: rest =>
      if c == '"' then
        match parseStrLit fuel rest with
        | none => none
        | some (s, r1) => some (JVal.jstr s, r1)
      else if c == lbrace then
        match skipWs rest with
        | [] => none
        | c2 :: r2 =>
          if c2 == rbrace then some (JVal.jobj [], r2)
          else parseGo fuel (PMode.objRest []) (c2 :: r2)
      else if c == '[' then
        match skipWs rest with
        | [] => none
        | c2 :: r2 =>
          if c2 == ']' then some (JVal.jarr [], r2)
          else parseGo fuel (PMode.arrRest []) (c2 :: r2)
      else if startsWithChars "true".data (c :: rest) then
        some (JVal.jbool true, (c :: rest).drop 4)
      else if startsWithChars "false".data (c :: rest) then
        some (JVal.jbool false, (c :: rest).drop 5)
      else if startsWithChars "null".data (c :: rest) then
        some (JVal.jnull, (c :: rest).drop 4)
      else parseNumTok (c :: rest)
  | fuel + 1, PMode.objRest acc, cs =>
    match cs with
    | [] => none
    | c :: r1 =>
      if c == '"' then
        match parseStrLit fuel r1 with
        | none => none
        | some (key, r2) =>
          match skipWs r2 with
          | [] => none
          | c2 :: r3 =>
            if c2 == ':' then
              match parseGo fuel PMode.val r3 with
              | none => none
              | some (v, r4) =>
                match skipWs r4 with
                | [] => none
                | c3 :: r5 =>
                  if c3 == ',' then parseGo fuel (PMode.objRest (acc ++ [(key, v)])) (skipWs r5)
                  else if c3 == rbrace then some (JVal.jobj (acc ++ [(key, v)]), r5)
                  else none
            else none
      else none
  | fuel + 1, PMode.arrRest acc, cs =>
    match parseGo fuel PMode.val cs with
    | none => none
    | some (v, r1) =>
      match skipWs r1 with
      | [] => none
      | c :: r2 =>
        if c == ',' then parseGo fuel (PMode.arrRest (acc ++ [v])) r2
        else if c == ']' then some (JVal.jarr (acc ++ [v]), r2)
        else none

/-- `JSON.parse`: parse one value and require only whitespace after it;
`none` models a thrown `SyntaxError`. -/
def jsonParse (s : String) : Option JVal :=
  match parseGo (s.data.length + 2) PMode.val s.data with
  | some (v, rest) => if (skipWs rest).isEmpty then some v else none
  | none => none

/-! ## `extractJSON` (older service file, lines 501-573)

```ts
const extractJSON = (text: string): any => {
  if (!text) return null;
  const cleanText = text.replace(/^```json\s*/i, '').replace(/^```\s*/, '')
                        .replace(/\s*```$/, '').trim();
  try { return JSON.parse(cleanText); } catch (e) {}
  const candidates = []; let depth = 0; let start = -1;
  let insideString = false; let escape = false;
  for (let i = 0; i < text.length; i++) {
      const char = text[i];
      if (escape) { escape = false; continue; }
      if (char === '\\') { escape = true; continue; }
      if (char === '"') { insideString = !insideString; continue; }
      if (!insideString) {
          if (char === '{') { if (depth === 0) start = i; depth++; }
          else if (char === '}') {
              depth--;
              if (depth === 0 && start !== -1) {
                  try { candidates.push(JSON.parse(text.substring(start, i+1))); }
                  catch (e) {}
                  start = -1;
              }
          }
      }
  }
  if (candidates.length > 0) return candidates[candidates.length - 1];
  const firstOpen = text.indexOf('{'); const lastClose = text.lastIndexOf('}');
  if (firstOpen !== -1 && lastClose !== -1 && lastClose > firstOpen) {
      try { return JSON.parse(text.substring(firstOpen, lastClose + 1)); }
      catch (e) { return null; }
  }
  return null;
};
``` -/

/-- JavaScript `\s` / `String.prototype.trim` whitespace, restricted to
the characters that can realistically occur here (ASCII whitespace and
NBSP; exotic Unicode space classes are not modelled). -/
def isJsWs (c : Char) : Bool :=
  c == ' ' || c == '\t' || c == '\n' || c == '\r' ||
  c == Char.ofNat 11 || c == Char.ofNat 12 || c == Char.ofNat 160

def dropLeadingWs (cs : List Char) : List Char := cs.dropWhile isJsWs

def dropTrailingWs (cs : List Char) : List Char := (cs.reverse.dropWhile isJsWs).reverse

def trimJs (cs : List Char) : List Char := dropTrailingWs (dropLeadingWs cs)

/-- Case-insensitive literal prefix strip (the `/i` flag of the first
fence regex). -/
def stripPrefConcatCI : List Char → List Char → Option (List Char)
  | [], s => some s
  | _ :: _, [] => none
  | a :: as, b :: bs => if a.toLower == b.toLower then stripPrefConcatCI as bs else none

/-- The three fence-stripping regex replacements plus `trim()` applied to
the input of `extractJSON` before the direct-parse attempt. -/
def cleanFences (cs : List Char) : List Char :=
  let s1 :=
    match stripPrefConcatCI "```json".data cs with
    | some r => dropLeadingWs r
    | none => cs
  let s2 := if startsWithChars "```".data s1 then dropLeadingWs (s1.drop 3) else s1
  let s3 :=
    if endsWithChars "```".data s2 then dropTrailingWs (s2.take (s2.length - 3)) else s2
  trimJs s3

/-- The brace-depth scanner (step 2 of `extractJSON`).  `esc`, `ins` and
`depth` mirror `escape`, `insideString` and `depth`; `acc = some a` means
`start !== -1` with `a` holding the chars of the open chunk in reverse.
Produces the raw balanced `{...}` chunks, in order. -/
def scanChunks : List Char → Bool → Bool → Int → Option (List Char) → List (List Char)
  | [], _, _, _, _ => []
  | c :: cs, esc, ins, depth, acc =>
    let acc2 : Option (List Char) :=
      match acc with
      | some a => some (c :: a)
      | none => none
    if esc then scanChunks cs false ins depth acc2
    else if c == '\\' then scanChunks cs true ins depth acc2
    else if c == '"' then scanChunks cs false (!ins) depth acc2
    else if ins then scanChunks cs false ins depth acc2
    else if c == lbrace then
      if depth == 0 then scanChunks cs false ins (depth + 1) (some [c])
      else scanChunks cs false ins (depth + 1) acc2
    else if c == rbrace then
      if depth - 1 == 0 then
        match acc2 with
        | some a => a.reverse :: scanChunks cs false ins (depth - 1) none
        | none => scanChunks cs false ins (depth - 1) none
      else scanChunks cs false ins (depth - 1) acc2
    else scanChunks cs false ins depth acc2

/-- The scanner's candidates that `JSON.parse` accepts, in order. -/
def candidateVals (cs : List Char) : List JVal :=
  (scanChunks cs false false 0 none).filterMap (fun chunk => jsonParse (String.mk chunk))

/-- Step 3: best-effort parse of the slice from the first `{` to the last
`}` (requiring the latter to come strictly later). -/
def sliceFallback (cs : List Char) : Option JVal :=
  match cs.findIdx? (fun c => c == lbrace), cs.reverse.findIdx? (fun c => c == rbrace) with
  | some fo, some lcRev =>
    let lc := cs.length - 1 - lcRev
    if fo < lc then jsonParse (String.mk ((cs.drop fo).take (lc - fo + 1)))
    else none
  | _, _ => none

/-- `extractJSON`: `none` models the JS `null` soft failure. -/
def extractJSON (text : String) : Option JVal :=
  if text = "" then none
  else
    match jsonParse (String.mk (cleanFences text.data)) with
    | some v => some v
    | none =>
      match (candidateVals text.data).getLast? with
      | some v => some v
      | none => sliceFallback text.data

/-- C5.  `extractJSON` returns the LAST well-formed top-level object among
those the brace scanner recovers (outside string literals, respecting
escapes): whenever the direct parse of the fence-stripped text fails and
the scan produced at least one parseable candidate, the result is the last
such candidate; in particular, on the input `'{"a":1}{"b":2}'` it returns
`{"b":2}`. -/
theorem c5_extract_last_object :
    (∀ (text : String) (v : JVal),
      text ≠ "" →
      jsonParse (String.mk (cleanFences text.data)) = none →
      (candidateVals text.data).getLast? = some v →
      extractJSON text = some v) ∧
    extractJSON "\x7b\"a\":1\x7d\x7b\"b\":2\x7d" = some (JVal.jobj [("b", JVal.jnum "2")]) := by
  constructor
  · intro text v hne hp hl
    simp [extractJSON, hne, hp, hl]
  · rfl

/-- Witness for `c5_extract_last_object`: the concrete two-object input,
with every hypothesis discharged by evaluation. -/
theorem c5_extract_last_object_witness :
    extractJSON "\x7b\"a\":1\x7d\x7b\"b\":2\x7d" = some (JVal.jobj [("b", JVal.jnum "2")]) :=
  c5_extract_last_object.1 "\x7b\"a\":1\x7d\x7b\"b\":2\x7d" (JVal.jobj [("b", JVal.jnum "2")])
    (by decide) rfl rfl

/-- C6.  `extractJSON` is total with `null` (`none`) as its only failure
mode — the embedding is `Option`-valued with every control path returning,
mirroring the `try/catch` around each `JSON.parse`: the empty string gives
`none`, unparseable garbage gives `none`, and whenever the direct parse
fails and the candidate scan finds nothing, the result is exactly the one
best-effort parse of the slice from the first `{` to the last `}`
(`sliceFallback`), which yields `none` when that slice does not parse or
no such slice exists.  The last conjunct shows the fallback recovering an
object the scanner missed (an unmatched prose quote hides the braces from
the scan). -/
theorem c6_extract_total_and_fallback :
    extractJSON "" = none ∧
    extractJSON "random garbage !!!" = none ∧
    (∀ text : String, text ≠ "" →
      jsonParse (String.mk (cleanFences text.data)) = none →
      candidateVals text.data = [] →
      extractJSON text = sliceFallback text.data) ∧
    (candidateVals "Note: \" \x7b\"a\":1\x7d".data = [] ∧
      extractJSON "Note: \" \x7b\"a\":1\x7d" = some (JVal.jobj [("a", JVal.jnum "1")])) := by
  refine ⟨rfl, rfl, ?_, rfl, rfl⟩
  intro text hne hp hc
  simp [extractJSON, hne, hp, hc]

/-- Witness for `c6_extract_total_and_fallback`: on garbage, the scan is
empty and the result equals the (failing) slice fallback, hence `none`. -/
theorem c6_extract_total_and_fallback_witness :
    extractJSON "random garbage !!!" = sliceFallback "random garbage !!!".data ∧
    sliceFallback "random garbage !!!".data = none :=
  ⟨c6_extract_total_and_fallback.2.2.1 "random garbage !!!" (by decide) rfl rfl, rfl⟩

/-! ## The best-effort secondary checks (timeliness / venue / integrity)

Newer service file, `checkPaperTimeliness` (lines 314-348),
`checkVenueQuality` (357-377), `checkAuthorIntegrity` (379-398): each
wraps `dispatchAIRequest` + fence-strip + `JSON.parse` in a `try` whose
`catch` returns a fixed default record.  The dispatch outcome is abstract
(`Except Err String`: the response text, or the error the dispatch chain
threw); an uncaught exception of the modelled body is an `Except.error`,
so "never throws" is: the whole function always returns `Except.ok`. -/

/-- `result.text.replace(/```json|```/g, '')`: global removal of fence
tokens, trying the longer alternative first at each position, then
`trim()`. -/
def stripFenceTokens : Nat → List Char → List Char
  | 0, cs => cs
  | _ + 1, [] => []
  | fuel + 1, c :: cs =>
    if startsWithChars "```json".data (c :: cs) then stripFenceTokens fuel ((c :: cs).drop 7)
    else if startsWithChars "```".data (c :: cs) then stripFenceTokens fuel ((c :: cs).drop 3)
    else c :: stripFenceTokens fuel cs

def stripFences (s : String) : String :=
  String.mk (trimJs (stripFenceTokens (s.data.length + 1) s.data))

/-- A thrown `SyntaxError` from `JSON.parse`. -/
def parseErr : Err := ⟨none, "SyntaxError: Unexpected token in JSON"⟩

/-- A thrown `TypeError` from reading `.recommendations` off `null`. -/
def nullAccessErr : Err := ⟨none, "TypeError: Cannot read properties of null"⟩

/-- The catch-block default of `checkPaperTimeliness` (line 346). -/
def defaultTimelinessJson : JVal :=
  JVal.jobj [("isOutdated", JVal.jbool false),
    ("status", JVal.jstr "Check Unavailable"),
    ("summary", JVal.jstr "Unable to verify timeliness."),
    ("recommendations", JVal.jarr [])]

/-- The catch-block default of `checkVenueQuality` (line 375). -/
def defaultVenueJson (venueText : String) : JVal :=
  JVal.jobj [("name", JVal.jstr venueText),
    ("type", JVal.jstr "Unknown"),
    ("quality", JVal.jstr "Check Unavailable"),
    ("summary", JVal.jstr "Unable to analyze venue.")]

/-- The catch-block default of `checkAuthorIntegrity` (line 396). -/
def defaultIntegrityJson : JVal :=
  JVal.jobj [("hasIssues", JVal.jbool false),
    ("summary", JVal.jstr "Integrity check unavailable.")]

/-- `checkPaperTimeliness`.  The try body: dispatch, strip fences, parse;
reading `.recommendations` off a parsed `null` throws (caught below); the
fire-and-forget `verifyRecommendations(...).then(...)` does not modify the
returned report.  The catch: return the default. -/
def checkPaperTimeliness (dispatched : Except Err String) : Except Err JVal :=
  let body : Except Err JVal :=
    match dispatched with
    | Except.error e => Except.error e
    | Except.ok text =>
      match jsonParse (stripFences text) with
      | none => Except.error parseErr
      | some report =>
        match report with
        | JVal.jnull => Except.error nullAccessErr
        | _ => Except.ok report
  match body with
  | Except.ok r => Except.ok r
  | Except.error _ => Except.ok defaultTimelinessJson

/-- `checkVenueQuality` (the parsed value is returned as-is). -/
def checkVenueQuality (venueText : String) (dispatched : Except Err String) :
    Except Err JVal :=
  let body : Except Err JVal :=
    match dispatched with
    | Except.error e => Except.error e
    | Except.ok text =>
      match jsonParse (stripFences text) with
      | none => Except.error parseErr
      | some report => Except.ok report
  match body with
  | Except.ok r => Except.ok r
  | Except.error _ => Except.ok (defaultVenueJson venueText)

/-- `checkAuthorIntegrity` (the parsed value is returned as-is). -/
def checkAuthorIntegrity (dispatched : Except Err String) : Except Err JVal :=
  let body : Except Err JVal :=
    match dispatched with
    | Except.error e => Except.error e
    | Except.ok text =>
      match jsonParse (stripFences text) with
      | none => Except.error parseErr
      | some report => Except.ok report
  match body with
  | Except.ok r => Except.ok r
  | Except.error _ => Except.ok defaultIntegrityJson

/-- C7.  The three secondary checks never propagate an error: every
dispatch outcome yields an `ok` result; a failed dispatch or a response
whose JSON cannot be parsed yields exactly the documented default record
(for timeliness: `isOutdated: false`, status `"Check Unavailable"`, empty
recommendations). -/
theorem c7_secondary_checks_never_throw :
    (∀ d : Except Err String, ∃ v, checkPaperTimeliness d = Except.ok v) ∧
    (∀ e : Err, checkPaperTimeliness (Except.error e) = Except.ok defaultTimelinessJson) ∧
    (∀ t : String, jsonParse (stripFences t) = none →
      checkPaperTimeliness (Except.ok t) = Except.ok defaultTimelinessJson) ∧
    (∀ (vt : String) (d : Except Err String), ∃ v, checkVenueQuality vt d = Except.ok v) ∧
    (∀ (vt : String) (e : Err),
      checkVenueQuality vt (Except.error e) = Except.ok (defaultVenueJson vt)) ∧
    (∀ (vt t : String), jsonParse (stripFences t) = none →
      checkVenueQuality vt (Except.ok t) = Except.ok (defaultVenueJson vt)) ∧
    (∀ d : Except Err String, ∃ v, checkAuthorIntegrity d = Except.ok v) ∧
    (∀ e : Err, checkAuthorIntegrity (Except.error e) = Except.ok defaultIntegrityJson) ∧
    (∀ t : String, jsonParse (stripFences t) = none →
      checkAuthorIntegrity (Except.ok t) = Except.ok defaultIntegrityJson) := by
  refine ⟨?_, fun e => rfl, ?_, ?_, fun vt e => rfl, ?_, ?_, fun e => rfl, ?_⟩
  · intro d
    match d with
    | Except.error e => exact ⟨defaultTimelinessJson, rfl⟩
    | Except.ok t =>
      rcases hj : jsonParse (stripFences t) with _ | v
      · exact ⟨defaultTimelinessJson, by simp [checkPaperTimeliness, hj]⟩
      · cases v with
        | jnull => exact ⟨defaultTimelinessJson, by simp [checkPaperTimeliness, hj]⟩
        | jbool b => exact ⟨JVal.jbool b, by simp [checkPaperTimeliness, hj]⟩
        | jnum n => exact ⟨JVal.jnum n, by simp [checkPaperTimeliness, hj]⟩
        | jstr s => exact ⟨JVal.jstr s, by simp [checkPaperTimeliness, hj]⟩
        | jarr a => exact ⟨JVal.jarr a, by simp [checkPaperTimeliness, hj]⟩
        | jobj f => exact ⟨JVal.jobj f, by simp [checkPaperTimeliness, hj]⟩
  · intro t hp
    simp [checkPaperTimeliness, hp]
  · intro vt d
    match d with
    | Except.error e => exact ⟨defaultVenueJson vt, rfl⟩
    | Except.ok t =>
      rcases hj : jsonParse (stripFences t) with _ | v
      · exact ⟨defaultVenueJson vt, by simp [checkVenueQuality, hj]⟩
      · exact ⟨v, by simp [checkVenueQuality, hj]⟩
  · intro vt t hp
    simp [checkVenueQuality, hp]
  · intro d
    match d with
    | Except.error e => exact ⟨defaultIntegrityJson, rfl⟩
    | Except.ok t =>
      rcases hj : jsonParse (stripFences t) with _ | v
      · exact ⟨defaultIntegrityJson, by simp [checkAuthorIntegrity, hj]⟩
      · exact ⟨v, by simp [checkAuthorIntegrity, hj]⟩
  · intro t hp
    simp [checkAuthorIntegrity, hp]

/-- Witness for `c7_secondary_checks_never_throw`: a provider returning
malformed JSON (the spec scenario) yields the default report without any
propagated error. -/
theorem c7_secondary_checks_never_throw_witness :
    checkPaperTimeliness (Except.ok "Sorry, I could not find that paper.") =
      Except.ok defaultTimelinessJson :=
  c7_secondary_checks_never_throw.2.2.1 "Sorry, I could not find that paper." rfl

/-! ## The link-verification enrichment pass (older service file)

`checkPaperTimeliness` lines 736-748:

```ts
if (report.recommendations && report.recommendations.length > 0) {
    const verifiedRecommendations = await Promise.all(
        report.recommendations.map(async (rec) => {
            const verifiedLink = await verifyAndFindPaperLink(rec.title, rec.year);
            return { ...rec, link: verifiedLink };
        })
    );
    report.recommendations = verifiedRecommendations;
}
return report;
```

and `verifyAndFindPaperLink` lines 646-689.  `Promise.all` over `map`
issues one sub-query per recommendation concurrently and joins the
results positionally; the join's observable outcome is exactly the map
below.  The per-recommendation verification outcome is abstracted as
`verify : title → year → Option String`. -/

/-- Recommendation record, per `types.ts` (`title`, `year`, `reason`,
optional `link`). -/
structure Recommendation where
  title : String
  year : String
  reason : String
  link : Option String
deriving Repr, DecidableEq

/-- `TimelinessReport` record, per `types.ts`. -/
structure TimelinessReport where
  isOutdated : Bool
  status : String
  summary : String
  recommendations : List Recommendation
deriving Repr, DecidableEq

/-- The `Promise.all(recs.map(...))` join: one verification per
recommendation, attached positionally via `{ ...rec, link }`. -/
def verifyRecommendations (verify : String → String → Option String)
    (recs : List Recommendation) : List Recommendation :=
  recs.map (fun r => { r with link := verify r.title r.year })

/-- The sub-queries issued by the enrichment pass, in order. -/
def enrichSubQueries (recs : List Recommendation) : List (String × String) :=
  recs.map (fun r => (r.title, r.year))

/-- The enrichment phase of the older `checkPaperTimeliness`: only a
report with a non-empty recommendations list is enriched; nothing else in
the report is touched. -/
def timelinessEnrich (verify : String → String → Option String)
    (report : TimelinessReport) : TimelinessReport :=
  if 0 < report.recommendations.length then
    { report with recommendations := verifyRecommendations verify report.recommendations }
  else report

/-- JavaScript truthiness of a JSON value (`0`, `""`, `null`, `false` are
falsy).  A numeric lexeme denotes zero iff every mantissa digit is `0`. -/
def jsTruthy : JVal → Bool
  | JVal.jnull => false
  | JVal.jbool b => b
  | JVal.jstr s => !(s == "")
  | JVal.jnum lex =>
    !((lex.data.takeWhile (fun c => !(c == 'e') && !(c == 'E'))).all
      (fun c => !c.isDigit || c == '0'))
  | JVal.jarr _ => true
  | JVal.jobj _ => true

/-- Property read `v[key]`: `undefined` (`none`) on non-objects; on
objects, the last occurrence wins (as `JSON.parse` keeps the last
duplicate key). -/
def jGet (v : JVal) (key : String) : Option JVal :=
  match v with
  | JVal.jobj fields => (fields.reverse.find? (fun kv => kv.1 == key)).map (fun kv => kv.2)
  | _ => none

def jsTruthyOpt : Option JVal → Bool
  | none => false
  | some v => jsTruthy v

/-- `verifyAndFindPaperLink` over an abstract sub-dispatch outcome:
`extractJSON(response.text || "{}")`, then
`result && result.found && result.url ? result.url : undefined`; the
catch block (and a missing API key) give `undefined`.  The TS signature
types the link as `string | undefined`, so a non-string `url` value is
modelled as no link. -/
def verifyAndFindPaperLink (resp : Except Err String) : Option String :=
  match resp with
  | Except.error _ => none
  | Except.ok t =>
    let target := if t = "" then "\x7b\x7d" else t
    match extractJSON target with
    | none => none
    | some r =>
      if jsTruthy r && jsTruthyOpt (jGet r "found") && jsTruthyOpt (jGet r "url") then
        match jGet r "url" with
        | some (JVal.jstr u) => some u
        | _ => none
      else none

/-- C8.  For a report with a non-empty recommendations list, the
enrichment pass issues exactly one link-verification sub-query per
recommendation (`enrichSubQueries`) and joins the outcomes positionally:
the enriched list has the same length, every recommendation keeps its
`title`/`year`/`reason`, and its `link` becomes exactly its own
verification outcome (`some url` on success, `none` on failure or
not-found); `isOutdated`, `status` and `summary` are untouched.  A failed
sub-dispatch degrades to `none` via `verifyAndFindPaperLink`. -/
theorem c8_enrichment_positional (verify : String → String → Option String)
    (report : TimelinessReport) (hne : 0 < report.recommendations.length) :
    ((timelinessEnrich verify report).isOutdated = report.isOutdated ∧
     (timelinessEnrich verify report).status = report.status ∧
     (timelinessEnrich verify report).summary = report.summary) ∧
    (timelinessEnrich verify report).recommendations =
      verifyRecommendations verify report.recommendations ∧
    (∀ recs : List Recommendation,
      (verifyRecommendations verify recs).length = recs.length ∧
      (enrichSubQueries recs).length = recs.length) ∧
    (∀ (recs : List Recommendation) (i : Nat) (hi : i < recs.length)
        (hi2 : i < (verifyRecommendations verify recs).length),
      ((verifyRecommendations verify recs).get ⟨i, hi2⟩).title = (recs.get ⟨i, hi⟩).title ∧
      ((verifyRecommendations verify recs).get ⟨i, hi2⟩).year = (recs.get ⟨i, hi⟩).year ∧
      ((verifyRecommendations verify recs).get ⟨i, hi2⟩).reason = (recs.get ⟨i, hi⟩).reason ∧
      ((verifyRecommendations verify recs).get ⟨i, hi2⟩).link =
        verify (recs.get ⟨i, hi⟩).title (recs.get ⟨i, hi⟩).year) ∧
    (∀ e : Err, verifyAndFindPaperLink (Except.error e) = none) := by
  refine ⟨?_, ?_, ?_, ?_, fun e => rfl⟩
  · simp [timelinessEnrich, hne]
  · simp [timelinessEnrich, hne]
  · intro recs
    simp [verifyRecommendations, enrichSubQueries]
  · intro recs i hi hi2
    simp [verifyRecommendations]

/-- A concrete report and verifier for the witness. -/
def c8Report : TimelinessReport :=
  ⟨true, "Legacy", "Superseded by newer work.",
    [⟨"Paper A", "2024", "direct successor", none⟩,
     ⟨"Paper B", "2025", "state of the art", none⟩]⟩

/-- A verifier that finds a link for the first recommendation only. -/
def c8Verify : String → String → Option String :=
  fun t _ => if t = "Paper A" then some "https://arxiv.org/abs/2401.00001" else none

/-- Witness for `c8_enrichment_positional` at a two-recommendation
report: first link attached, second left absent, frame intact. -/
theorem c8_enrichment_positional_witness :
    (timelinessEnrich c8Verify c8Report).status = "Legacy" ∧
    (timelinessEnrich c8Verify c8Report).recommendations =
      [⟨"Paper A", "2024", "direct successor", some "https://arxiv.org/abs/2401.00001"⟩,
       ⟨"Paper B", "2025", "state of the art", none⟩] ∧
    verifyAndFindPaperLink (Except.error ⟨none, "fetch failed"⟩) = none := by
  have h := c8_enrichment_positional c8Verify c8Report (by decide)
  refine ⟨h.1.2.1.trans rfl, h.2.1.trans (by decide), h.2.2.2.2 ⟨none, "fetch failed"⟩⟩

/-! ## OpenAI-compatible adapter URL normalization

`callOpenAICompatible`, lines 72-77:

```ts
let url = baseUrl.replace(/\/+$/, ''); // Remove trailing slash
if (!url.endsWith('/chat/completions')) {
     url = `${url}/chat/completions`;
}
``` -/

/-- The canonical completions path suffix. -/
def chatSuffix : List Char := "/chat/completions".data

/-- `baseUrl.replace(/\/+$/, '')`: remove every trailing `/`. -/
def stripTrailingSlashes (cs : List Char) : List Char :=
  (cs.reverse.dropWhile (fun c => c == '/')).reverse

/-- The adapter's URL normalization. -/
def normalizeChatUrl (baseUrl : String) : String :=
  let url := stripTrailingSlashes baseUrl.data
  if endsWithChars chatSuffix url then String.mk url
  else String.mk (url ++ chatSuffix)

/-- Occurrences of `pat` (at any position, overlapping counted) in a
character list. -/
def countOccurrences (pat : List Char) : List Char → Nat
  | [] => 0
  | c :: cs => (if startsWithChars pat (c :: cs) then 1 else 0) + countOccurrences pat cs

theorem startsWithChars_append_self (p r : List Char) :
    startsWithChars p (p ++ r) = true := by
  induction p with
  | nil => rfl
  | cons a as ih => simp [startsWithChars, ih]

theorem endsWithChars_append_self (pat l : List Char) :
    endsWithChars pat (l ++ pat) = true := by
  unfold endsWithChars
  rw [List.reverse_append]
  exact startsWithChars_append_self pat.reverse l.reverse

theorem startsWithChars_cons_ex (a : Char) (p s : List Char)
    (h : startsWithChars (a :: p) s = true) : ∃ t, s = a :: t := by
  match s with
  | [] => exact absurd h (by simp [startsWithChars])
  | b :: bs =>
    refine ⟨bs, ?_⟩
    simp only [startsWithChars, Bool.and_eq_true, beq_iff_eq] at h
    rw [h.1]

theorem head?_dropWhile_negative (p : Char → Bool) :
    ∀ (l : List Char) (x : Char), (l.dropWhile p).head? = some x → p x = false := by
  intro l
  induction l with
  | nil => intro x h; cases h
  | cons c cs ih =>
    intro x h
    rw [List.dropWhile_cons] at h
    by_cases hc : p c
    · rw [if_pos hc] at h
      exact ih x h
    · rw [if_neg hc] at h
      cases h
      exact Bool.of_not_eq_true hc

theorem stripTrailingSlashes_decomposition (cs : List Char) :
    ∃ k, cs = stripTrailingSlashes cs ++ List.replicate k '/' := by
  refine ⟨(cs.reverse.takeWhile (fun c => c == '/')).length, ?_⟩
  have hsplit := List.takeWhile_append_dropWhile (fun c => c == '/') cs.reverse
  have hrep : cs.reverse.takeWhile (fun c => c == '/') =
      List.replicate (cs.reverse.takeWhile (fun c => c == '/')).length '/' :=
    List.eq_replicate_of_mem (fun b hb => by
      have := List.mem_takeWhile_imp hb
      exact eq_of_beq this)
  have h2 : (cs.reverse.takeWhile (fun c => c == '/')).reverse =
      List.replicate (cs.reverse.takeWhile (fun c => c == '/')).length '/' := by
    conv_lhs => rw [hrep]
    rw [List.reverse_replicate]
  calc cs = cs.reverse.reverse := (List.reverse_reverse cs).symm
    _ = (cs.reverse.takeWhile (fun c => c == '/') ++
          cs.reverse.dropWhile (fun c => c == '/')).reverse := by rw [hsplit]
    _ = stripTrailingSlashes cs ++ (cs.reverse.takeWhile (fun c => c == '/')).reverse := by
          rw [List.reverse_append]; rfl
    _ = stripTrailingSlashes cs ++
          List.replicate (cs.reverse.takeWhile (fun c => c == '/')).length '/' := by
          rw [h2]

theorem stripTrailingSlashes_no_slash (cs : List Char) (x : Char)
    (h : (stripTrailingSlashes cs).getLast? = some x) : x ≠ '/' := by
  unfold stripTrailingSlashes at h
  rw [List.getLast?_reverse] at h
  have := head?_dropWhile_negative (fun c => c == '/') cs.reverse x h
  simpa using this

theorem stripTrailingSlashes_fix_of_endsWith (l : List Char)
    (h : endsWithChars chatSuffix l = true) : stripTrailingSlashes l = l := by
  unfold endsWithChars at h
  have hrev : chatSuffix.reverse = 's' :: "noitelpmoc/tahc/".data := by decide
  rw [hrev] at h
  obtain ⟨t, ht⟩ := startsWithChars_cons_ex 's' "noitelpmoc/tahc/".data l.reverse h
  unfold stripTrailingSlashes
  rw [ht, List.dropWhile_cons, if_neg (by decide), ← ht, List.reverse_reverse]

/-- C9 counterexample.  For the configured base URL
`"https://h/chat/completions/chat/completions"` the normalization leaves
the URL unchanged (it already ends with the suffix), so the request URL
ends with TWO consecutive copies of `/chat/completions` — the suffix
occurs twice, not "exactly once" as the claim states.  The code only
guarantees it never *appends* a second copy. -/
theorem c9_exactly_once_counterexample :
    normalizeChatUrl "https://h/chat/completions/chat/completions" =
      "https://h/chat/completions/chat/completions" ∧
    countOccurrences chatSuffix
      (normalizeChatUrl "https://h/chat/completions/chat/completions").data = 2 ∧
    endsWithChars (chatSuffix ++ chatSuffix)
      (normalizeChatUrl "https://h/chat/completions/chat/completions").data = true ∧
    (2 : Nat) ≠ 1 := by
  refine ⟨rfl, rfl, rfl, by decide⟩

/-- C9 (amended).  The normalization strips all trailing slashes (the
input decomposes as the stripped URL plus a run of slashes, and the
stripped URL does not end in `/`), appends `/chat/completions` exactly
when the stripped URL does not already end with it (never appending a
second copy), always yields a URL ending with `/chat/completions`, and is
idempotent; a base URL that itself ends in repeated copies of the suffix
keeps them. -/
theorem c9_url_normalization_amended (u : String) :
    (∃ k, u.data = stripTrailingSlashes u.data ++ List.replicate k '/') ∧
    (∀ c, (stripTrailingSlashes u.data).getLast? = some c → c ≠ '/') ∧
    (endsWithChars chatSuffix (stripTrailingSlashes u.data) = true →
      (normalizeChatUrl u).data = stripTrailingSlashes u.data) ∧
    (endsWithChars chatSuffix (stripTrailingSlashes u.data) = false →
      (normalizeChatUrl u).data = stripTrailingSlashes u.data ++ chatSuffix) ∧
    endsWithChars chatSuffix (normalizeChatUrl u).data = true ∧
    normalizeChatUrl (normalizeChatUrl u) = normalizeChatUrl u := by
  have hends : endsWithChars chatSuffix (normalizeChatUrl u).data = true := by
    simp only [normalizeChatUrl]
    by_cases h : endsWithChars chatSuffix (stripTrailingSlashes u.data) = true
    · rw [if_pos h]
      exact h
    · rw [if_neg (by simp [h])]
      exact endsWithChars_append_self chatSuffix (stripTrailingSlashes u.data)
  have key : ∀ v : String, endsWithChars chatSuffix v.data = true → normalizeChatUrl v = v := by
    intro v hv
    have hfix : stripTrailingSlashes v.data = v.data :=
      stripTrailingSlashes_fix_of_endsWith _ hv
    simp only [normalizeChatUrl, hfix]
    rw [if_pos hv]
  refine ⟨stripTrailingSlashes_decomposition u.data,
    fun c hc => stripTrailingSlashes_no_slash u.data c hc, ?_, ?_, hends, key _ hends⟩
  · intro h
    simp only [normalizeChatUrl]
    rw [if_pos h]
  · intro h
    simp only [normalizeChatUrl]
    rw [if_neg (by simp [h])]

/-- Witness for `c9_url_normalization_amended` at a realistic base URL
with one trailing slash: the suffix is appended once, the result ends
with it, and renormalizing changes nothing. -/
theorem c9_url_normalization_amended_witness :
    (normalizeChatUrl "https://api.siliconflow.cn/v1/").data =
      stripTrailingSlashes "https://api.siliconflow.cn/v1/".data ++ chatSuffix ∧
    endsWithChars chatSuffix (normalizeChatUrl "https://api.siliconflow.cn/v1/").data = true ∧
    normalizeChatUrl (normalizeChatUrl "https://api.siliconflow.cn/v1/") =
      normalizeChatUrl "https://api.siliconflow.cn/v1/" := by
  have h := c9_url_normalization_amended "https://api.siliconflow.cn/v1/"
  exact ⟨h.2.2.2.1 rfl, h.2.2.2.2.1, h.2.2.2.2.2⟩

/-! ## The App-level job queue (`App.tsx`)

The queue effect (`processNextInQueue`, lines 474-511) runs only when
`executionQueue` is non-empty and `isProcessingQueue` is false; it sets
the flag, marks the head job `analyzing`, awaits the analysis (which ends
in `completed` or `error`), then pops the queue and clears the flag.
`startAnalysis` (lines 933-1007) either appends batch jobs to the queue
as `queued`, or — in file mode — sets the new job to `analyzing` and runs
it DIRECTLY, without consulting the queue or the flag.

The event-loop interleavings are modelled as a small-step transition
system; one state per React-state snapshot between awaits.ated -/

/-- Job status, as stored on a `HistoryItem` (`absent` = no such job). -/
inductive JobStatus where
  | absent
  | queued
  | analyzing
  | completed
  | jobError
deriving Repr, DecidableEq

/-- Queue-subsystem state: per-id status, `executionQueue`,
`isProcessingQueue`, the queue job whose analysis is in flight, the ids
created by the file-upload path, the batch-submitted ids in submission
order, the queue ids finished in completion order, and a fresh-id
counter. -/
structure QState where
  status : Nat → JobStatus
  queue : List Nat
  processing : Bool
  runningQ : Option Nat
  fileJobs : List Nat
  submitted : List Nat
  done : List Nat
  nextId : Nat

def initQ : QState :=
  ⟨fun _ => JobStatus.absent, [], false, none, [], [], [], 0⟩

def updStatus (f : Nat → JobStatus) (j : Nat) (st : JobStatus) : Nat → JobStatus :=
  fun i => if i = j then st else f i

def idRange (a n : Nat) : List Nat := (List.range n).map (fun i => a + i)

/-- `startAnalysis` batch path: `n` fresh jobs appended as `queued`. -/
def applySubmit (s : QState) (n : Nat) : QState :=
  { s with
    status := fun i =>
      if s.nextId ≤ i ∧ i < s.nextId + n then JobStatus.queued else s.status i,
    queue := s.queue ++ idRange s.nextId n,
    submitted := s.submitted ++ idRange s.nextId n,
    nextId := s.nextId + n }

/-- Queue effect, first half: guard passed (`queue` non-empty, flag
clear), flag set, head marked `analyzing`, analysis started. -/
def applyDequeue (s : QState) (j : Nat) : QState :=
  { s with
    status := updStatus s.status j JobStatus.analyzing,
    processing := true,
    runningQ := some j }

/-- Queue effect, second half: the awaited analysis finished with `st`,
the head is popped and the flag cleared. -/
def applyFinishQ (s : QState) (j : Nat) (st : JobStatus) : QState :=
  { s with
    status := updStatus s.status j st,
    queue := s.queue.drop 1,
    processing := false,
    runningQ := none,
    done := s.done ++ [j] }

/-- `startAnalysis` file path: a fresh job set directly to `analyzing`,
bypassing queue and flag. -/
def applyFileStart (s : QState) : QState :=
  { s with
    status := updStatus s.status s.nextId JobStatus.analyzing,
    fileJobs := s.fileJobs ++ [s.nextId],
    nextId := s.nextId + 1 }

/-- The direct file analysis finished with `st`. -/
def applyFileFinish (s : QState) (j : Nat) (st : JobStatus) : QState :=
  { s with
    status := updStatus s.status j st }

/-- One event-loop step of the queue subsystem. -/
inductive QStep : QState → QState → Prop where
  | submitBatch {s : QState} {n : Nat} (hn : 0 < n) : QStep s (applySubmit s n)
  | dequeue {s : QState} {j : Nat} {rest : List Nat}
      (hq : s.queue = j :: rest) (hp : s.processing = false) :
      QStep s (applyDequeue s j)
  | finishQ {s : QState} {j : Nat} {st : JobStatus}
      (hr : s.runningQ = some j)
      (hst : st = JobStatus.completed ∨ st = JobStatus.jobError) :
      QStep s (applyFinishQ s j st)
  | fileStart {s : QState} : QStep s (applyFileStart s)
  | fileFinish {s : QState} {j : Nat} {st : JobStatus}
      (hj : j ∈ s.fileJobs)
      (hst : st = JobStatus.completed ∨ st = JobStatus.jobError) :
      QStep s (applyFileFinish s j st)

/-- Reachable queue states. -/
inductive QReach : QState → Prop where
  | init : QReach initQ
  | step {s s' : QState} : QReach s → QStep s s' → QReach s'

/-- A batch job is submitted and dequeued (now `analyzing`); while its
analysis is awaited, the user uploads a PDF, whose job the file path sets
to `analyzing` immediately. -/
def c10CexState : QState := applyFileStart (applyDequeue (applySubmit initQ 1) 0)

/-- C10 counterexample.  A reachable state in which jobs 0 (queue path)
and 1 (file-upload path) are BOTH `analyzing`: the file path starts its
analysis directly, without consulting `executionQueue` or
`isProcessingQueue`, so it overlaps a queue job already in flight — the
claimed "at no point are two jobs simultaneously analyzing (including the
file-upload path)" fails. -/
theorem c10_two_analyzing_counterexample :
    QReach c10CexState ∧
    c10CexState.status 0 = JobStatus.analyzing ∧
    c10CexState.status 1 = JobStatus.analyzing ∧
    (0 : Nat) ≠ 1 := by
  refine ⟨?_, rfl, rfl, by decide⟩
  exact QReach.step
    (QReach.step (QReach.step QReach.init (QStep.submitBatch (by decide)))
      (QStep.dequeue (show (applySubmit initQ 1).queue = 0 :: [] by decide) rfl))
    QStep.fileStart

/-- The inductive invariant of the queue subsystem. -/
structure QInv (s : QState) : Prop where
  fifo : s.done ++ s.queue = s.submitted
  analyzingRun : ∀ i ∈ s.submitted, s.status i = JobStatus.analyzing → s.runningQ = some i
  runSpec : ∀ j, s.runningQ = some j →
    s.processing = true ∧ s.queue.head? = some j ∧ j ∈ s.submitted ∧
    s.status j = JobStatus.analyzing
  procRun : s.processing = false → s.runningQ = none
  fresh : ∀ i, s.nextId ≤ i → s.status i = JobStatus.absent
  subLt : ∀ i ∈ s.submitted, i < s.nextId
  fileLt : ∀ i ∈ s.fileJobs, i < s.nextId
  fileNotSub : ∀ i ∈ s.fileJobs, i ∉ s.submitted

theorem mem_idRange {a n i : Nat} : i ∈ idRange a n ↔ a ≤ i ∧ i < a + n := by
  simp only [idRange, List.mem_map, List.mem_range]
  constructor
  · rintro ⟨k, hk, rfl⟩
    omega
  · rintro ⟨h1, h2⟩
    exact ⟨i - a, by omega, by omega⟩

theorem head?_append_of_head? {l l2 : List Nat} {j : Nat} (h : l.head? = some j) :
    (l ++ l2).head? = some j := by
  cases l with
  | nil => cases h
  | cons a t => simpa using h

theorem qinv_init : QInv initQ := by
  refine ⟨rfl, ?_, ?_, ?_, ?_, ?_, ?_, ?_⟩
  · intro i hi
    cases hi
  · intro j hj
    cases hj
  · intro _
    rfl
  · intro i _
    rfl
  · intro i hi
    cases hi
  · intro i hi
    cases hi
  · intro i hi
    cases hi

theorem qinv_step {s s' : QState} (hinv : QInv s) (hstep : QStep s s') : QInv s' := by
  cases hstep with
  | submitBatch hn =>
    rename_i n
    refine ⟨?_, ?_, ?_, ?_, ?_, ?_, ?_, ?_⟩ <;>
      simp only [applySubmit, updStatus]
    · rw [← List.append_assoc, hinv.fifo]
    · intro i hi hst
      by_cases hc : s.nextId ≤ i ∧ i < s.nextId + n
      · rw [if_pos hc] at hst
        cases hst
      · rw [if_neg hc] at hst
        rcases List.mem_append.1 hi with hi | hi
        · exact hinv.analyzingRun i hi hst
        · exact absurd (mem_idRange.1 hi) hc
    · intro j hj
      obtain ⟨h1, h2, h3, h4⟩ := hinv.runSpec j hj
      have hlt := hinv.subLt j h3
      have hnc : ¬ (s.nextId ≤ j ∧ j < s.nextId + n) := by omega
      refine ⟨h1, head?_append_of_head? h2, List.mem_append_left _ h3, ?_⟩
      rw [if_neg hnc]
      exact h4
    · exact hinv.procRun
    · intro i hi
      have h1 : ¬ (s.nextId ≤ i ∧ i < s.nextId + n) := by omega
      rw [if_neg h1]
      exact hinv.fresh i (by omega)
    · intro i hi
      rcases List.mem_append.1 hi with hi | hi
      · have := hinv.subLt i hi
        omega
      · have := (mem_idRange.1 hi).2
        omega
    · intro i hi
      have := hinv.fileLt i hi
      omega
    · intro i hi hmem
      rcases List.mem_append.1 hmem with hm | hm
      · exact hinv.fileNotSub i hi hm
      · have h1 := hinv.fileLt i hi
        have h2 := (mem_idRange.1 hm).1
        omega
  | dequeue hq hp =>
    rename_i j rest
    have hnone : s.runningQ = none := hinv.procRun hp
    have hjq : j ∈ s.queue := by
      rw [hq]
      exact List.mem_cons_self j rest
    have hjsub : j ∈ s.submitted := by
      rw [← hinv.fifo]
      exact List.mem_append_right _ hjq
    refine ⟨?_, ?_, ?_, ?_, ?_, ?_, ?_, ?_⟩ <;>
      simp only [applyDequeue, updStatus]
    · exact hinv.fifo
    · intro i hi hst
      by_cases hij : i = j
      · rw [hij]
      · rw [if_neg hij] at hst
        have h2 := hinv.analyzingRun i hi hst
        rw [hnone] at h2
        cases h2
    · intro k hk
      injection hk with hkeq
      subst hkeq
      refine ⟨trivial, ?_, hjsub, ?_⟩
      · rw [hq]
        rfl
      · rw [if_pos rfl]
    · intro hfalse
      cases hfalse
    · intro i hi
      have hij : i ≠ j := by
        have := hinv.subLt j hjsub
        omega
      rw [if_neg hij]
      exact hinv.fresh i hi
    · exact hinv.subLt
    · exact hinv.fileLt
    · exact hinv.fileNotSub
  | finishQ hr hst =>
    rename_i j st
    obtain ⟨hproc, hhead, hjsub, hjan⟩ := hinv.runSpec j hr
    have hqeq : s.queue = j :: s.queue.tail := by
      cases hcs : s.queue with
      | nil =>
        rw [hcs] at hhead
        cases hhead
      | cons a t =>
        rw [hcs] at hhead
        injection hhead with h
        rw [h]
        rfl
    have hstne : st ≠ JobStatus.analyzing := by
      rcases hst with h | h <;> rw [h] <;> intro hh <;> cases hh
    refine ⟨?_, ?_, ?_, ?_, ?_, ?_, ?_, ?_⟩ <;>
      simp only [applyFinishQ, updStatus]
    · rw [List.append_assoc, ← hinv.fifo]
      congr 1
      conv_rhs => rw [hqeq]
      rw [List.drop_one]
      rfl
    · intro i hi hstan
      exfalso
      by_cases hij : i = j
      · subst hij
        rw [if_pos rfl] at hstan
        exact hstne hstan
      · rw [if_neg hij] at hstan
        have h2 := hinv.analyzingRun i hi hstan
        rw [hr] at h2
        injection h2 with h3
        exact hij h3.symm
    · intro k hk
      cases hk
    · intro _
      trivial
    · intro i hi
      have hij : i ≠ j := by
        have := hinv.subLt j hjsub
        omega
      rw [if_neg hij]
      exact hinv.fresh i hi
    · exact hinv.subLt
    · exact hinv.fileLt
    · exact hinv.fileNotSub
  | fileStart =>
    refine ⟨?_, ?_, ?_, ?_, ?_, ?_, ?_, ?_⟩ <;>
      simp only [applyFileStart, updStatus]
    · exact hinv.fifo
    · intro i hi hst
      have hif : i ≠ s.nextId := by
        have := hinv.subLt i hi
        omega
      rw [if_neg hif] at hst
      exact hinv.analyzingRun i hi hst
    · intro k hk
      obtain ⟨h1, h2, h3, h4⟩ := hinv.runSpec k hk
      have hkf : k ≠ s.nextId := by
        have := hinv.subLt k h3
        omega
      refine ⟨h1, h2, h3, ?_⟩
      rw [if_neg hkf]
      exact h4
    · exact hinv.procRun
    · intro i hi
      have hif : i ≠ s.nextId := by omega
      rw [if_neg hif]
      exact hinv.fresh i (by omega)
    · intro i hi
      have := hinv.subLt i hi
      omega
    · intro i hi
      rcases List.mem_append.1 hi with hm | hm
      · have := hinv.fileLt i hm
        omega
      · have : i = s.nextId := by simpa using hm
        omega
    · intro i hi
      rcases List.mem_append.1 hi with hm | hm
      · exact hinv.fileNotSub i hm
      · have hieq : i = s.nextId := by simpa using hm
        intro hsub
        have := hinv.subLt i hsub
        omega
  | fileFinish hj hst =>
    rename_i j st
    have hjns : j ∉ s.submitted := hinv.fileNotSub j hj
    refine ⟨?_, ?_, ?_, ?_, ?_, ?_, ?_, ?_⟩ <;>
      simp only [applyFileFinish, updStatus]
    · exact hinv.fifo
    · intro i hi hstan
      have hij : i ≠ j := fun h => hjns (h ▸ hi)
      rw [if_neg hij] at hstan
      exact hinv.analyzingRun i hi hstan
    · intro k hk
      obtain ⟨h1, h2, h3, h4⟩ := hinv.runSpec k hk
      have hkj : k ≠ j := fun h => hjns (h ▸ h3)
      refine ⟨h1, h2, h3, ?_⟩
      rw [if_neg hkj]
      exact h4
    · exact hinv.procRun
    · intro i hi
      have hij : i ≠ j := by
        have := hinv.fileLt j hj
        omega
      rw [if_neg hij]
      exact hinv.fresh i hi
    · exact hinv.subLt
    · exact hinv.fileLt
    · exact hinv.fileNotSub

theorem qinv_reach : ∀ s, QReach s → QInv s := by
  intro s hs
  induction hs with
  | init => exact qinv_init
  | step _ hstep ih => exact qinv_step ih hstep

/-- C10 (amended).  Among QUEUE-submitted jobs the claimed discipline
holds in every reachable state: at most one is `analyzing` at a time, and
the completed-so-far list followed by the pending queue always equals the
submission order (strict FIFO, so three submitted queries are processed
in submission order).  The file-upload path, however, bypasses the queue
(see the counterexample): a file job can be `analyzing` concurrently with
a queue job, so the claim's "no two jobs simultaneously analyzing,
including the file-upload path" does not hold as stated. -/
theorem c10_queue_amended (s : QState) (hs : QReach s) :
    (∀ i j, i ∈ s.submitted → j ∈ s.submitted →
      s.status i = JobStatus.analyzing → s.status j = JobStatus.analyzing → i = j) ∧
    s.done ++ s.queue = s.submitted := by
  have h := qinv_reach s hs
  refine ⟨?_, h.fifo⟩
  intro i j hi hj hsi hsj
  have h1 := h.analyzingRun i hi hsi
  have h2 := h.analyzingRun j hj hsj
  rw [h1] at h2
  injection h2

/-- Witness for `c10_queue_amended`: three queries submitted and the
first dequeued — the FIFO equation holds at that reachable state, with
the queue in submission order. -/
theorem c10_queue_amended_witness :
    (applyDequeue (applySubmit initQ 3) 0).done ++ (applyDequeue (applySubmit initQ 3) 0).queue =
      (applyDequeue (applySubmit initQ 3) 0).submitted ∧
    (applyDequeue (applySubmit initQ 3) 0).queue = [0, 1, 2] := by
  refine ⟨(c10_queue_amended _ ?_).2, rfl⟩
  exact QReach.step (QReach.step QReach.init (QStep.submitBatch (by decide)))
    (QStep.dequeue (show (applySubmit initQ 3).queue = 0 :: [1, 2] by decide) rfl)

end PaperInsight
